import Mathlib

/-!
Verification of the realtime voice-assistant pipeline.

This file gives a shallow embedding, in Lean, of the parts of the code that
the specification's claims are about:

* `RTA.Audio`   — src/utils/audio.py: `parse_audio_header`,
  `VoiceActivityDetector.detect`, `AudioProcessor.process_audio_data`.
  Bytes are naturals below 256; the float energy computation is embedded
  over the rationals (the comparisons in every claim are far from the
  rounding boundary of the binary64 value 0.05).
* `RTA.Textm`   — src/utils/text.py: `split_into_sentences` (the regex
  split after a terminator character together with the following
  whitespace) and `process_streaming_text`; strings are lists of
  characters.
* `RTA.Sess`    — src/session.py: `SessionState.request_interrupt` and its
  helpers, with asyncio queues as lists and tasks as done/cancelled flags.
* `RTA.TTSQ`    — src/websocket/pipeline.py: a small-step interleaving
  semantics of the TTS worker loop (`_process_tts_queue`) plus the
  synthesis tasks (`_synthesize_speech`), with the completion latch.
* `RTA.Intr`    — the closed set of operations in src/websocket/handler.py
  and src/websocket/pipeline.py that touch the interrupt flag and the
  queues after connection setup.
* `RTA.Sweep`   — src/session.py `cleanup_inactive_sessions` together with
  the construction path of sessions in handler.py / pipeline.py.
* `RTA.TTSE`    — the per-sentence client-visible event streams of
  `_synthesize_speech` (orchestrator) and the Azure adapter send queue
  (`AzureTTSService.synthesize_text` / `_process_send_queue`).
* `RTA.LLMR`    — `PipelineHandler._process_llm_response` with its
  try/except/finally exit discipline.
-/

set_option autoImplicit false
set_option maxRecDepth 8000

namespace RTA

namespace Audio

/-- Little-endian unsigned decode of a 4-byte list
(struct.unpack with format "<I"). -/
def leU32 (b : List Nat) : Nat :=
  b.getD 0 0 + 256 * b.getD 1 0 + 65536 * b.getD 2 0 + 16777216 * b.getD 3 0

/-- Signed 16-bit little-endian decode of two bytes
(int.from_bytes, byteorder little, signed). -/
def i16 (lo hi : Nat) : Int :=
  let v := lo + 256 * hi
  if v < 32768 then (v : Int) else (v : Int) - 65536

/-- parse_audio_header from src/utils/audio.py: 4-byte LE timestamp,
4-byte LE status flags, remainder PCM; data shorter than 8 bytes raises. -/
def parse_audio_header (audio_data : List Nat) : Option (Nat × Nat × List Nat) :=
  if audio_data.length < 8 then none
  else some (leU32 (audio_data.take 4), leU32 ((audio_data.drop 4).take 4), audio_data.drop 8)

/-- Mutable state of VoiceActivityDetector. -/
structure VADState where
  energy_threshold : ℚ
  frame_count : Nat
  voice_frames : Nat
  reset_interval : Nat
deriving DecidableEq

/-- A fresh detector with the default threshold
(Config.VOICE_ENERGY_THRESHOLD, default 0.05). -/
def vadInit : VADState :=
  { energy_threshold := 1/20, frame_count := 0, voice_frames := 0, reset_interval := 20 }

/-- The PCM samples examined by detect: indices below
min 50 (len // 2), each guarded by i*2+1 < len. -/
def vadSamples (chunk : List Nat) : List Int :=
  (List.range (min 50 (chunk.length / 2))).filterMap fun i =>
    if i * 2 + 1 < chunk.length then
      some (i16 (chunk.getD (i * 2) 0) (chunk.getD (i * 2 + 1) 0))
    else none

/-- Mean absolute amplitude of the examined samples. -/
def meanAbs (chunk : List Nat) : ℚ :=
  (((vadSamples chunk).map Int.natAbs).sum : ℚ) / ((vadSamples chunk).length : ℚ)

/-- VoiceActivityDetector.detect, returning the result and the updated
detector state.  Chunks shorter than 10 bytes return False before any
state is touched; otherwise frame_count is bumped (with the periodic
reset), the energy of up to the first 50 samples is compared against the
threshold, and voice_frames is bumped on a voiced chunk. -/
def detect (st : VADState) (audio_chunk : List Nat) : Bool × VADState :=
  if audio_chunk.length < 10 then (false, st)
  else
    let st1 : VADState := { st with frame_count := st.frame_count + 1 }
    let st2 : VADState :=
      if st.reset_interval < st1.frame_count then
        { st1 with frame_count := 0, voice_frames := 0 }
      else st1
    if min 50 (audio_chunk.length / 2) = 0 then (false, st2)
    else
      let samples := vadSamples audio_chunk
      if samples = [] then (false, st2)
      else
        let energy : ℚ := ((samples.map Int.natAbs).sum : ℚ) / (samples.length : ℚ)
        let normalized := energy / 32768
        let has_voice := st.energy_threshold < normalized
        (has_voice, if has_voice then { st2 with voice_frames := st2.voice_frames + 1 } else st2)

/-- AudioProcessor.process_audio_data: reject data shorter than 10 bytes
(no PCM), otherwise parse the header, run the detector on the PCM part and
return (has_voice, pcm).  The except branch of the Python code is
unreachable for data of length at least 10 and is embedded faithfully. -/
def process_audio_data (st : VADState) (audio_data : List Nat) :
    Bool × Option (List Nat) × VADState :=
  if audio_data.length < 10 then (false, none, st)
  else
    match parse_audio_header audio_data with
    | none => (false, if 2 < audio_data.length then some audio_data else none, st)
    | some (_, _, pcm) =>
      let r := detect st pcm
      (r.1, some pcm, r.2)

/-- The concrete frame of the spec scenario: header bytes
01 00 00 00 00 00 00 00 followed by 160 silent 16-bit samples. -/
def testFrame : List Nat := [1, 0, 0, 0, 0, 0, 0, 0] ++ List.replicate 320 0

/-- A fully saturated chunk of 4 samples (8 bytes), each +32767. -/
def satChunk8 : List Nat := [255, 127, 255, 127, 255, 127, 255, 127]

/-- A fully saturated chunk of 5 samples (10 bytes), each +32767. -/
def satChunk10 : List Nat := [255, 127, 255, 127, 255, 127, 255, 127, 255, 127]

end Audio

namespace Textm

/-- The thirteen sentence-terminator characters shared by the regex class
of split_into_sentences and the sentence_endings list of
process_streaming_text in src/utils/text.py. -/
def sentence_endings : List Char :=
  ['。', '！', '？', '.', '!', '?', '，', ',', '、', ';', '；', ':', '：']

/-- Terminator test. -/
def isEnd (c : Char) : Bool := sentence_endings.contains c

/-- Whitespace, modelling the whitespace class of the regex and str.strip
on the characters that occur in practice: ASCII whitespace plus the
vertical tab, form feed, no-break space and ideographic space. -/
def isSpace (c : Char) : Bool :=
  c.isWhitespace || c = '\x0b' || c = '\x0c' || c = ' ' || c = '　'

/-- str.strip. -/
def strip (s : List Char) : List Char :=
  ((s.dropWhile isSpace).reverse.dropWhile isSpace).reverse

/-- A stripped piece is kept only when it is non-empty (the comprehension
filter of split_into_sentences). -/
def emitPiece (p : List Char) : List (List Char) :=
  let q := strip p
  if q = [] then [] else [q]

/-- Core of the regex split: the pattern matches right after every
terminator character and consumes the following whitespace.  The scan is
in one of two modes: accumulating a piece (some cur), or skipping the
whitespace that follows a terminator (none); a terminator closes the
current piece, and in skipping mode a terminator is a piece of its own
(the regex splits again right after it).  Each piece is stripped and
dropped if empty. -/
def splitRun : Option (List Char) → List Char → List (List Char)
  | none, [] => []
  | some cur, [] => emitPiece cur
  | none, c :: rest =>
    if isSpace c then splitRun none rest
    else if isEnd c then emitPiece [c] ++ splitRun none rest
    else splitRun (some [c]) rest
  | some cur, c :: rest =>
    if isEnd c then emitPiece (cur ++ [c]) ++ splitRun none rest
    else splitRun (some (cur ++ [c])) rest

/-- split_into_sentences from src/utils/text.py. -/
def split_into_sentences (text : List Char) : List (List Char) :=
  splitRun (some []) text

/-- Does the buffer contain any terminator (the any-membership test of
process_streaming_text)? -/
def hasEnd (s : List Char) : Bool := s.any isEnd

/-- Does the buffer end with a terminator (str.endswith on the tuple)? -/
def endsWithEnd (s : List Char) : Bool :=
  match s.getLast? with
  | some c => isEnd c
  | none => false

/-- process_streaming_text from src/utils/text.py: append the chunk to the
buffer; with no terminator return no sentences; otherwise split, and keep
the last piece as the new buffer unless the buffer ends in a terminator. -/
def process_streaming_text (chunk current_buffer : List Char) :
    List (List Char) × List Char :=
  let text_buffer := current_buffer ++ chunk
  if ¬ hasEnd text_buffer then ([], text_buffer)
  else
    let sentences := split_into_sentences text_buffer
    if endsWithEnd text_buffer then (sentences, [])
    else (sentences.dropLast, (sentences.getLast?).getD [])

/-- Left-to-right fold of process_streaming_text over a chunk stream,
threading the returned buffer; collects all emitted sentences and the
final buffer. -/
def processChunks : List (List Char) → List Char → List (List Char) × List Char
  | [], buf => ([], buf)
  | c :: cs, buf =>
    let r := process_streaming_text c buf
    let rest := processChunks cs r.2
    (r.1 ++ rest.1, rest.2)

/-- No whitespace character occurs in the list. -/
abbrev WsFree (l : List Char) : Prop := ∀ c ∈ l, isSpace c = false

/-- No terminator character occurs in the list. -/
abbrev EndFree (l : List Char) : Prop := ∀ c ∈ l, isEnd c = false

end Textm

namespace Sess

/-- An asyncio task handle, abstracted to its done and cancelled bits. -/
structure TaskH where
  done : Bool
  cancelled : Bool
deriving DecidableEq

/-- One outbound client message; request_interrupt and its helpers send
none, so only the count matters here. -/
abbrev Msg := String

/-- The fields of SessionState touched by request_interrupt. -/
structure SessionState where
  interrupt_requested : Bool
  is_processing_llm : Bool
  is_tts_active : Bool
  asr_queue : List String
  llm_queue : List String
  tts_queue : List String
  pipeline_tasks : List TaskH
  current_llm_task : Option TaskH
  current_tts_task : Option TaskH
deriving DecidableEq

/-- The drain loop of _clear_queues for one queue: get_nowait until empty;
it produces no outbound messages. -/
def drainQueue : List String → List String × List Msg
  | [] => ([], [])
  | _ :: rest => drainQueue rest

/-- _clear_queues: drain the three pipeline queues. -/
def clearQueues (s : SessionState) : SessionState × List Msg :=
  let a := drainQueue s.asr_queue
  let l := drainQueue s.llm_queue
  let t := drainQueue s.tts_queue
  ({ s with asr_queue := a.1, llm_queue := l.1, tts_queue := t.1 },
   a.2 ++ l.2 ++ t.2)

/-- _cancel_pipeline_tasks: cancel the worker tasks and clear the list,
cancel (and null out) the current LLM and TTS tasks when not done, then
drain the queues. -/
def cancelPipelineTasks (s : SessionState) : SessionState × List Msg :=
  let s1 := { s with pipeline_tasks := [] }
  let s2 :=
    match s1.current_llm_task with
    | some t => if t.done then s1 else { s1 with current_llm_task := none }
    | none => s1
  let s3 :=
    match s2.current_tts_task with
    | some t => if t.done then s2 else { s2 with current_tts_task := none }
    | none => s2
  clearQueues s3

/-- SessionState.request_interrupt: set the flag, then cancel tasks and
drain the queues. -/
def request_interrupt (s : SessionState) : SessionState × List Msg :=
  cancelPipelineTasks { s with interrupt_requested := true }

/-- SessionState.clear_interrupt. -/
def clear_interrupt (s : SessionState) : SessionState :=
  { s with interrupt_requested := false }

end Sess

namespace TTSQ

/-- Await points of one synthesis task (_synthesize_speech): it is about
to emit tts_start, inside synthesize_text, about to emit tts_end, or in
the finally block. -/
inductive TaskPhase
  | beforeStart
  | synth
  | beforeEnd
  | exiting
deriving DecidableEq

/-- A live synthesis task. -/
structure SynthTask where
  sentence : String
  phase : TaskPhase
deriving DecidableEq

/-- Await points of the TTS worker loop (_process_tts_queue): suspended on
tts_completion_event.wait, or past the wait and suspended on
tts_queue.get.  Between the get and the next wait the loop clears the
latch and creates the task without yielding, so that block is one step. -/
inductive WorkerPhase
  | atWait
  | atGet
deriving DecidableEq

/-- Client-visible events of the orchestrator for this subsystem. -/
inductive Ev
  | ttsStart (s : String)
  | ttsEnd (s : String)
deriving DecidableEq

/-- Configuration of the TTS subsystem: the tts_in queue, the completion
latch, the worker, the set of live synthesis tasks, the emitted events,
and the log of all enqueued sentences. -/
structure Cfg where
  queue : List String
  latch : Bool
  worker : WorkerPhase
  tasks : List SynthTask
  events : List Ev
  enqueued : List String
deriving DecidableEq

/-- Initial configuration: the latch starts set
(tts_completion_event.set in PipelineHandler.__init__). -/
def initCfg : Cfg :=
  { queue := [], latch := true, worker := .atWait, tasks := [], events := [], enqueued := [] }

/-- Interleaving small-step semantics.  Producers may enqueue at any time;
the worker passes the wait only when the latch is set, and dequeue, latch
clear and task creation form one atomic block (no await between them); a
task emits tts_start, synthesizes (possibly failing), emits tts_end, and
on every exit sets the latch in its finally block. -/
inductive Step : Cfg → Cfg → Prop
  | enqueue (c : Cfg) (s : String) :
      Step c { c with queue := c.queue ++ [s], enqueued := c.enqueued ++ [s] }
  | workerWait (c : Cfg) (h : c.worker = .atWait) (hl : c.latch = true) :
      Step c { c with worker := .atGet }
  | workerDequeue (c : Cfg) (s : String) (rest : List String)
      (h : c.worker = .atGet) (hq : c.queue = s :: rest) :
      Step c { c with queue := rest, latch := false, worker := .atWait,
                      tasks := c.tasks ++ [{ sentence := s, phase := .beforeStart }] }
  | taskStart (c : Cfg) (t : SynthTask) (pre post : List SynthTask)
      (h : c.tasks = pre ++ t :: post) (hp : t.phase = .beforeStart) :
      Step c { c with tasks := pre ++ { t with phase := .synth } :: post,
                      events := c.events ++ [.ttsStart t.sentence] }
  | taskSynthDone (c : Cfg) (t : SynthTask) (pre post : List SynthTask)
      (h : c.tasks = pre ++ t :: post) (hp : t.phase = .synth) :
      Step c { c with tasks := pre ++ { t with phase := .beforeEnd } :: post }
  | taskSynthFail (c : Cfg) (t : SynthTask) (pre post : List SynthTask)
      (h : c.tasks = pre ++ t :: post) (hp : t.phase = .synth) :
      Step c { c with tasks := pre ++ { t with phase := .exiting } :: post }
  | taskEnd (c : Cfg) (t : SynthTask) (pre post : List SynthTask)
      (h : c.tasks = pre ++ t :: post) (hp : t.phase = .beforeEnd) :
      Step c { c with tasks := pre ++ { t with phase := .exiting } :: post,
                      events := c.events ++ [.ttsEnd t.sentence] }
  | taskExit (c : Cfg) (t : SynthTask) (pre post : List SynthTask)
      (h : c.tasks = pre ++ t :: post) (hp : t.phase = .exiting) :
      Step c { c with tasks := pre ++ post, latch := true }

/-- Reachability from the initial configuration. -/
inductive Reachable : Cfg → Prop
  | init : Reachable initCfg
  | step {c c' : Cfg} : Reachable c → Step c c' → Reachable c'

/-- The sentences whose tts_start has been emitted, in emission order. -/
def starts (evs : List Ev) : List String :=
  evs.filterMap fun e =>
    match e with
    | .ttsStart s => some s
    | .ttsEnd _ => none

/-- The sentence a task still owes a tts_start for. -/
def pendingOf (t : SynthTask) : List String :=
  match t.phase with
  | .beforeStart => [t.sentence]
  | _ => []

/-- Inductive invariant: the enqueue log decomposes into the started
sentences, the pending sentences of live tasks, and the queue; at most one
task is live; a set latch means no live task; past the wait the latch is
still set. -/
def Inv (c : Cfg) : Prop :=
  c.enqueued = starts c.events ++ (c.tasks.map pendingOf).flatten ++ c.queue
  ∧ c.tasks.length ≤ 1
  ∧ (c.latch = true → c.tasks = [])
  ∧ (c.worker = .atGet → c.latch = true)

/-- A sample reachable configuration: one sentence enqueued, nothing
dequeued yet. -/
def demoCfg : Cfg :=
  { initCfg with queue := ["hello"], enqueued := ["hello"] }

end TTSQ

namespace Intr

/-- The session fields involved in interrupt handling: the flag, the three
queues, and whether the three pipeline worker tasks are still running
(they are cancelled together by _cancel_pipeline_tasks and started only
once, by start_pipeline at connection setup). -/
structure HSession where
  interrupt_requested : Bool
  asr_queue : List String
  llm_queue : List String
  tts_queue : List String
  workers_running : Bool
deriving DecidableEq

/-- request_interrupt as it acts on these fields: set the flag, cancel the
workers, drain all queues. -/
def requestInterrupt (s : HSession) : HSession :=
  { s with interrupt_requested := true, workers_running := false,
           asr_queue := [], llm_queue := [], tts_queue := [] }

/-- Every operation in handler.py and pipeline.py after connection setup
that touches the interrupt flag or the queues: barge-in
(handler._handle_audio_data), the stop and interrupt commands, a final
transcript arriving (process_final_transcript), and one iteration of the
ASR worker loop (pipeline._process_asr_queue).  No operation in the code
calls clear_interrupt or start_pipeline after setup. -/
inductive HEvent
  | bargeIn
  | stopCommand
  | interruptCommand
  | asrFinal (t : String)
  | asrWorkerStep
deriving DecidableEq

/-- Effect of one operation on the session. -/
def applyEvent (s : HSession) : HEvent → HSession
  | .bargeIn => requestInterrupt s
  | .stopCommand => requestInterrupt s
  | .interruptCommand => requestInterrupt s
  | .asrFinal t => { s with asr_queue := s.asr_queue ++ [t] }
  | .asrWorkerStep =>
    if s.workers_running = false then s
    else if s.interrupt_requested then { s with workers_running := false }
    else
      match s.asr_queue with
      | [] => s
      | t :: rest =>
        { s with asr_queue := rest, tts_queue := [], llm_queue := s.llm_queue ++ [t] }

/-- Fold a sequence of operations. -/
def applyEvents (s : HSession) (evs : List HEvent) : HSession :=
  evs.foldl applyEvent s

/-- The session right after an interrupt. -/
def postInterrupt : HSession :=
  { interrupt_requested := true, asr_queue := [], llm_queue := [],
    tts_queue := [], workers_running := false }

end Intr

namespace Sweep

/-- An opaque TTS-processor handle. -/
abbrev ProcRef := Nat

/-- The SessionState fields read by cleanup_inactive_sessions. -/
structure SSession where
  session_id : String
  last_activity : Nat
  tts_processor : Option ProcRef
deriving DecidableEq

/-- SessionState.__init__: tts_processor starts as None. -/
def sessionNew (sid : String) (now : Nat) : SSession :=
  { session_id := sid, last_activity := now, tts_processor := none }

/-- The handler-side owner of the TTS service. -/
structure PHandler where
  tts_processor : ProcRef
deriving DecidableEq

/-- PipelineHandler.__init__: it creates the TTS service and keeps it on
the handler; it writes nothing to the session (pipeline.py lines 15-21),
and no other code path assigns session.tts_processor. -/
def pipelineHandlerNew (s : SSession) (proc : ProcRef) : SSession × PHandler :=
  (s, { tts_processor := proc })

/-- Config.SESSION_TIMEOUT default. -/
def SESSION_TIMEOUT : Nat := 600

/-- SessionState.is_inactive with the default timeout. -/
def is_inactive (s : SSession) (now : Nat) : Bool :=
  SESSION_TIMEOUT < now - s.last_activity

/-- Observable actions of one sweep pass. -/
inductive SweepAction
  | ttsInterrupt (p : ProcRef)
  | removed (sid : String)
deriving DecidableEq

/-- Body of the sweep for one inactive session: interrupt its TTS
processor when the field is set, then remove it. -/
def sweepSession (s : SSession) : List SweepAction :=
  (match s.tts_processor with
   | some p => [SweepAction.ttsInterrupt p]
   | none => []) ++ [SweepAction.removed s.session_id]

/-- One pass of cleanup_inactive_sessions over the registry. -/
def sweep (now : Nat) (sessions : List SSession) : List SSession × List SweepAction :=
  (sessions.filter fun s => !(is_inactive s now),
   ((sessions.filter fun s => is_inactive s now).map sweepSession).flatten)

end Sweep

namespace TTSE

/-- Client-visible events of one synthesized sentence: the orchestrator
pair from _synthesize_speech, the adapter pair with the binary payload
from AzureTTSService._process_send_queue, plus tts_stop/error. -/
inductive CEv
  | ttsStartP
  | ttsEndP
  | ttsStartA (text : List Char)
  | binary (size : Nat)
  | ttsEndA
  | ttsStop
  | errMsg
deriving DecidableEq

/-- An entry of the adapter's send_queue. -/
structure SendItem where
  audio_len : Nat
  is_first : Bool
  text : List Char
deriving DecidableEq

/-- AzureTTSService.synthesize_text on the success path: empty text is
skipped; when the session is interrupted after the HTTP request the item
is dropped; otherwise one item (the full concatenated payload) is put on
the send queue.  It sends nothing to the client directly on this path. -/
def synthesize_text (text : List Char) (interrupted : Bool) (audio_len : Nat) :
    List CEv × List SendItem :=
  if Textm.strip text = [] then ([], [])
  else if interrupted then ([], [])
  else ([], [{ audio_len := audio_len, is_first := false, text := text }])

/-- PipelineHandler._synthesize_speech on the non-cancelled path: its own
tts_start, the adapter call, its own tts_end. -/
def synthesize_speech (text : List Char) (interrupted : Bool) (audio_len : Nat) :
    List CEv × List SendItem :=
  let r := synthesize_text text interrupted audio_len
  (CEv.ttsStartP :: r.1 ++ [CEv.ttsEndP], r.2)

/-- AzureTTSService._process_send_queue handling of one dequeued item:
skip it when interrupted, else adapter tts_start, one binary frame, and
adapter tts_end. -/
def processSendItem (interrupted : Bool) (item : SendItem) : List CEv :=
  if interrupted then []
  else [CEv.ttsStartA item.text, CEv.binary item.audio_len, CEv.ttsEndA]

/-- All adapter-side events for the items a synthesize_speech call
enqueued. -/
def adapterEvents (text : List Char) (interrupted : Bool) (audio_len : Nat) : List CEv :=
  (((synthesize_speech text interrupted audio_len).2).map (processSendItem interrupted)).flatten

/-- The orchestrator task and the adapter send task run concurrently, so
the client observes some interleaving of their event lists. -/
inductive Interleave : List CEv → List CEv → List CEv → Prop
  | nil : Interleave [] [] []
  | left {a b l : List CEv} (x : CEv) : Interleave a b l → Interleave (x :: a) b (x :: l)
  | right {a b l : List CEv} (x : CEv) : Interleave a b l → Interleave a (x :: b) (x :: l)

/-- Count of events satisfying a predicate. -/
def countP (p : CEv → Bool) (l : List CEv) : Nat := (l.filter p).length

/-- Any tts_start event, orchestrator- or adapter-emitted. -/
def isStart : CEv → Bool
  | .ttsStartP => true
  | .ttsStartA _ => true
  | _ => false

/-- Any tts_end event. -/
def isEnd : CEv → Bool
  | .ttsEndP => true
  | .ttsEndA => true
  | _ => false

/-- A binary audio frame. -/
def isBinary : CEv → Bool
  | .binary _ => true
  | _ => false

end TTSE

namespace LLMR

/-- Client messages emitted by _process_llm_response. -/
inductive MsgL
  | llmStatusProcessing
  | subtitle (content : List Char) (is_complete : Bool)
  | llmResponse (content : List Char) (is_complete : Bool)
deriving DecidableEq

/-- Session fields the LLM response task touches. -/
structure LState where
  is_processing_llm : Bool
  interrupted : Bool
  tts_queue : List (List Char)
deriving DecidableEq

/-- How the per-utterance LLM task leaves its loop: the stream ends
normally, an exception surfaces after k chunks, or the task is cancelled
at an await after k chunks. -/
inductive ExitMode
  | normal
  | error (k : Nat)
  | cancelled (k : Nat)
deriving DecidableEq

/-- Accumulators of the streaming loop. -/
structure LoopAcc where
  collected : List Char
  subtitle : List Char
  buf : List Char
  tts : List (List Char)
  msgs : List MsgL
deriving DecidableEq

/-- One loop iteration for one chunk: extend the response and the rolling
subtitle, run the segmenter, emit the rolling subtitle, emit one complete
subtitle per complete sentence and enqueue it for TTS, then emit the
rolling llm_response. -/
def llmStep (acc : LoopAcc) (chunk : List Char) : LoopAcc :=
  let collected := acc.collected ++ chunk
  let subtitle := acc.subtitle ++ chunk
  let r := Textm.process_streaming_text chunk acc.buf
  { collected := collected
    subtitle := subtitle
    buf := r.2
    tts := acc.tts ++ r.1
    msgs := acc.msgs
      ++ [MsgL.subtitle subtitle false]
      ++ (r.1.map fun s => MsgL.subtitle s true)
      ++ [MsgL.llmResponse collected false] }

/-- The chunks actually processed before the loop is left: none when the
session is already interrupted, otherwise all of them on a normal run and
the first k on an error or a cancellation. -/
def processedChunks (interrupted : Bool) (chunks : List (List Char)) :
    ExitMode → List (List Char)
  | .normal => if interrupted then [] else chunks
  | .error k => if interrupted then [] else chunks.take k
  | .cancelled k => if interrupted then [] else chunks.take k

/-- PipelineHandler._process_llm_response: set the in-flight flag, emit
llm_status processing, run the loop, and on a normal exit flush the
remaining buffer to TTS and emit the final llm_response; the except arms
swallow cancellation and errors, and the finally block always clears
is_processing_llm. -/
def process_llm_response (s : LState) (chunks : List (List Char)) (exit : ExitMode) :
    LState × List MsgL :=
  let s0 := { s with is_processing_llm := true }
  let acc0 : LoopAcc :=
    { collected := [], subtitle := [], buf := [], tts := s0.tts_queue,
      msgs := [MsgL.llmStatusProcessing] }
  let acc := (processedChunks s0.interrupted chunks exit).foldl llmStep acc0
  let tail : List (List Char) × List MsgL :=
    match exit with
    | .normal =>
      let flush :=
        if acc.buf ≠ [] ∧ s0.interrupted = false then
          ([acc.buf], [MsgL.subtitle acc.buf true])
        else ([], [])
      let fin :=
        if s0.interrupted = false then [MsgL.llmResponse acc.collected true] else []
      (flush.1, flush.2 ++ fin)
    | .error _ => ([], [])
    | .cancelled _ => ([], [])
  ({ s0 with is_processing_llm := false, tts_queue := acc.tts ++ tail.1 },
   acc.msgs ++ tail.2)

end LLMR

end RTA

namespace RTA

namespace Audio

theorem length_filterMap_of_isSome {α β : Type} (f : α → Option β) (l : List α)
    (h : ∀ a ∈ l, (f a).isSome) : (l.filterMap f).length = l.length := by
  induction l with
  | nil => simp
  | cons a t ih =>
    have ha := h a (List.mem_cons_self a t)
    rcases hfa : f a with _ | b
    · rw [hfa] at ha; simp at ha
    · rw [List.filterMap_cons, hfa]
      simp only [List.length_cons]
      rw [ih fun x hx => h x (List.mem_cons_of_mem a hx)]

theorem vadSamples_length (chunk : List Nat) :
    (vadSamples chunk).length = min 50 (chunk.length / 2) := by
  unfold vadSamples
  rw [length_filterMap_of_isSome, List.length_range]
  intro i hi
  rw [List.mem_range] at hi
  have h2 : i * 2 + 1 < chunk.length := by
    have hle : i + 1 ≤ chunk.length / 2 := Nat.lt_of_lt_of_le hi (Nat.min_le_right _ _)
    have := Nat.mul_le_mul_right 2 hle
    have hdiv : chunk.length / 2 * 2 ≤ chunk.length := Nat.div_mul_le_self _ _
    omega
  simp [h2]

theorem vadSamples_ne_nil {chunk : List Nat} (hlen : 10 ≤ chunk.length) :
    vadSamples chunk ≠ [] := by
  intro h
  have hl := vadSamples_length chunk
  rw [h] at hl
  simp only [List.length_nil] at hl
  omega

theorem detect_fst_eq (st : VADState) (chunk : List Nat) (hlen : 10 ≤ chunk.length) :
    (detect st chunk).1 = decide (st.energy_threshold < meanAbs chunk / 32768) := by
  have h1 : ¬ chunk.length < 10 := by omega
  have h2 : ¬ min 50 (chunk.length / 2) = 0 := by omega
  have h3 : ¬ vadSamples chunk = [] := vadSamples_ne_nil hlen
  simp only [detect, if_neg h1, if_neg h2, if_neg h3, meanAbs]

theorem getD_eq_zero_of_all_zero {l : List Nat} (h : ∀ b ∈ l, b = 0) (i : Nat) :
    l.getD i 0 = 0 := by
  induction l generalizing i with
  | nil => simp [List.getD]
  | cons a t ih =>
    cases i with
    | zero => simpa using h a (List.mem_cons_self a t)
    | succ j =>
      rw [List.getD_cons_succ]
      exact ih (fun b hb => h b (List.mem_cons_of_mem a hb)) j

theorem vadSamples_all_zero {chunk : List Nat} (h : ∀ b ∈ chunk, b = 0) :
    ∀ s ∈ vadSamples chunk, s = 0 := by
  intro s hs
  unfold vadSamples at hs
  rw [List.mem_filterMap] at hs
  obtain ⟨i, _, hsome⟩ := hs
  by_cases hlt : i * 2 + 1 < chunk.length
  · rw [if_pos hlt] at hsome
    have hz1 := getD_eq_zero_of_all_zero h (i * 2)
    have hz2 := getD_eq_zero_of_all_zero h (i * 2 + 1)
    rw [hz1, hz2] at hsome
    have : i16 0 0 = 0 := by decide
    rw [this] at hsome
    exact (Option.some_inj.mp hsome).symm
  · rw [if_neg hlt] at hsome
    exact absurd hsome (by simp)

theorem meanAbs_all_zero {chunk : List Nat} (h : ∀ b ∈ chunk, b = 0) :
    meanAbs chunk = 0 := by
  unfold meanAbs
  have hz : ((vadSamples chunk).map Int.natAbs).sum = 0 := by
    apply List.sum_eq_zero
    intro x hx
    rw [List.mem_map] at hx
    obtain ⟨s, hs, rfl⟩ := hx
    rw [vadSamples_all_zero h s hs]
    rfl
  rw [hz]
  simp

theorem sum_map_const_nat {α : Type} (l : List α) (f : α → Nat) (m : Nat)
    (h : ∀ x ∈ l, f x = m) : (l.map f).sum = l.length * m := by
  induction l with
  | nil => simp
  | cons a t ih =>
    simp only [List.map_cons, List.sum_cons, List.length_cons]
    rw [h a (List.mem_cons_self a t), ih fun x hx => h x (List.mem_cons_of_mem a hx)]
    ring

theorem meanAbs_saturated {chunk : List Nat} (hlen : 10 ≤ chunk.length)
    (h : ∀ s ∈ vadSamples chunk, s.natAbs = 32767) : meanAbs chunk = 32767 := by
  have hne : vadSamples chunk ≠ [] := vadSamples_ne_nil hlen
  have hpos : 0 < (vadSamples chunk).length := List.length_pos.mpr hne
  unfold meanAbs
  rw [sum_map_const_nat _ _ 32767 h]
  have hq : ((vadSamples chunk).length : ℚ) ≠ 0 := by
    exact_mod_cast Nat.pos_iff_ne_zero.mp hpos
  push_cast
  rw [mul_comm, mul_div_assoc, div_self hq, mul_one]

/-- Claim C8, amended: for every PCM chunk of at least 10 bytes the
detector classifies the chunk as voiced exactly when the mean absolute
amplitude of up to its first 50 samples, divided by 32768, exceeds the
energy threshold; hence an all-zero chunk of that length is unvoiced (for
any non-negative threshold) and a chunk of that length saturated at
32767 in magnitude is voiced at the default threshold 1/20.  (Chunks
shorter than 10 bytes are always classified unvoiced, whatever their
energy; see the counterexample.) -/
theorem claim8_voiced_iff_energy_above_threshold (st : VADState) (chunk : List Nat)
    (hlen : 10 ≤ chunk.length) :
    ((detect st chunk).1 = true ↔ st.energy_threshold < meanAbs chunk / 32768)
    ∧ (0 ≤ st.energy_threshold → (∀ b ∈ chunk, b = 0) → (detect st chunk).1 = false)
    ∧ (st.energy_threshold = 1/20 → (∀ s ∈ vadSamples chunk, s.natAbs = 32767) →
        (detect st chunk).1 = true) := by
  have hiff : (detect st chunk).1 = true ↔ st.energy_threshold < meanAbs chunk / 32768 := by
    rw [detect_fst_eq st chunk hlen]
    exact decide_eq_true_iff
  refine ⟨hiff, ?_, ?_⟩
  · intro hth hz
    rw [← Bool.not_eq_true, hiff, meanAbs_all_zero hz]
    rw [zero_div]
    exact not_lt.mpr hth
  · intro hdef hsat
    rw [hiff, meanAbs_saturated hlen hsat, hdef]
    norm_num

/-- Witness for claim C8: a 10-byte chunk of five samples saturated at
+32767 is classified as voiced at the default threshold. -/
theorem claim8_witness :
    10 ≤ satChunk10.length ∧ (detect vadInit satChunk10).1 = true :=
  ⟨by decide,
   (claim8_voiced_iff_energy_above_threshold vadInit satChunk10 (by decide)).2.2
     rfl (by decide)⟩

/-- Counterexample to claim C8 as stated: the fully saturated 4-sample
chunk (8 bytes) has normalized mean amplitude 32767/32768, far above the
default threshold, yet the detector classifies it as unvoiced because it
rejects every chunk shorter than 10 bytes. -/
theorem claim8_counterexample :
    (detect vadInit satChunk8).1 = false
    ∧ vadInit.energy_threshold < meanAbs satChunk8 / 32768 := by
  constructor
  · rfl
  · have hs : vadSamples satChunk8 = [32767, 32767, 32767, 32767] := rfl
    have h : meanAbs satChunk8 = 32767 := by
      unfold meanAbs
      rw [hs]
      norm_num
    rw [h]
    show (1/20 : ℚ) < 32767 / 32768
    norm_num

/-- Claim C10: a chunk shorter than 10 bytes is reported unvoiced and the
detector state (frame_count and voice_frames included) is returned
untouched. -/
theorem claim10_short_chunk_no_state_change (st : VADState) (chunk : List Nat)
    (h : chunk.length < 10) : detect st chunk = (false, st) := by
  simp [detect, h]

/-- Witness for claim C10: the fully saturated 4-sample chunk. -/
theorem claim10_witness :
    satChunk8.length < 10 ∧ detect vadInit satChunk8 = (false, vadInit) :=
  ⟨by decide, claim10_short_chunk_no_state_change vadInit satChunk8 (by decide)⟩

/-- Claim C7: frames of at least 10 bytes parse into the little-endian
32-bit timestamp (bytes 0-3), the little-endian 32-bit flags (bytes 4-7)
and the PCM payload (bytes 8 onward); frames shorter than 10 bytes are
rejected with no PCM; the concrete frame 01 00 00 00 00 00 00 00 followed
by 160 silent samples parses to timestamp 1, flags 0 and a 320-byte PCM
payload. -/
theorem claim7_audio_frame_parsing (st : VADState) (d : List Nat) :
    (10 ≤ d.length →
      parse_audio_header d =
        some (leU32 (d.take 4), leU32 ((d.drop 4).take 4), d.drop 8)
      ∧ (process_audio_data st d).2.1 = some (d.drop 8))
    ∧ (d.length < 10 → (process_audio_data st d).2.1 = none)
    ∧ parse_audio_header testFrame = some (1, 0, List.replicate 320 0)
    ∧ (List.replicate 320 (0 : Nat)).length = 320 := by
  refine ⟨?_, ?_, by decide, by simp⟩
  · intro h
    have h8 : ¬ d.length < 8 := by omega
    have h10 : ¬ d.length < 10 := by omega
    have hp : parse_audio_header d =
        some (leU32 (d.take 4), leU32 ((d.drop 4).take 4), d.drop 8) := by
      rw [parse_audio_header, if_neg h8]
    exact ⟨hp, by simp [process_audio_data, h10, hp]⟩
  · intro h
    simp [process_audio_data, h]

/-- Witness for claim C7: the concrete spec frame is accepted and its PCM
payload is the byte suffix after the 8-byte header. -/
theorem claim7_witness :
    10 ≤ testFrame.length
    ∧ (process_audio_data vadInit testFrame).2.1 = some (testFrame.drop 8) :=
  ⟨by decide, ((claim7_audio_frame_parsing vadInit testFrame).1 (by decide)).2⟩

end Audio

namespace Textm

theorem wsFree_append {a b : List Char} (ha : WsFree a) (hb : WsFree b) :
    WsFree (a ++ b) := by
  intro c hc
  rcases List.mem_append.mp hc with h | h
  · exact ha c h
  · exact hb c h

theorem wsFree_of_append_left {a b : List Char} (h : WsFree (a ++ b)) : WsFree a :=
  fun c hc => h c (List.mem_append.mpr (Or.inl hc))

theorem wsFree_of_append_right {a b : List Char} (h : WsFree (a ++ b)) : WsFree b :=
  fun c hc => h c (List.mem_append.mpr (Or.inr hc))

theorem wsFree_nil : WsFree [] := fun c hc => absurd hc (List.not_mem_nil c)

theorem endFree_nil : EndFree [] := fun c hc => absurd hc (List.not_mem_nil c)

theorem dropWhile_eq_self_of_wsFree {l : List Char} (h : WsFree l) :
    l.dropWhile isSpace = l := by
  cases l with
  | nil => rfl
  | cons a t =>
    rw [List.dropWhile_cons]
    simp [h a (List.mem_cons_self a t)]

theorem strip_eq_self_of_wsFree {l : List Char} (h : WsFree l) : strip l = l := by
  have hr : WsFree l.reverse := fun c hc => h c (List.mem_reverse.mp hc)
  unfold strip
  rw [dropWhile_eq_self_of_wsFree h, dropWhile_eq_self_of_wsFree hr, List.reverse_reverse]

theorem emitPiece_of_wsFree {l : List Char} (h : WsFree l) (hne : l ≠ []) :
    emitPiece l = [l] := by
  unfold emitPiece
  rw [strip_eq_self_of_wsFree h]
  simp [hne]

theorem splitRun_none_eq_some_nil {b : List Char} (h : WsFree b) :
    splitRun none b = splitRun (some []) b := by
  cases b with
  | nil => rfl
  | cons x xs =>
    have hx : isSpace x = false := h x (List.mem_cons_self x xs)
    simp [splitRun, hx]

theorem splitRun_endFree : ∀ (p : List Char), EndFree p →
    ∀ cur, splitRun (some cur) p = emitPiece (cur ++ p) := by
  intro p
  induction p with
  | nil => intro _ cur; simp [splitRun]
  | cons c t ih =>
    intro h cur
    have hc : isEnd c = false := h c (List.mem_cons_self c t)
    have ht : EndFree t := fun x hx => h x (List.mem_cons_of_mem c hx)
    simp only [splitRun, hc, Bool.false_eq_true, if_false]
    rw [ih ht (cur ++ [c]), List.append_assoc, List.singleton_append]

theorem splitRun_append : ∀ (a : List Char) (c : Char) (b : List Char) (cur : List Char),
    WsFree (a ++ [c]) → isEnd c = true → WsFree b →
    splitRun (some cur) ((a ++ [c]) ++ b)
      = splitRun (some cur) (a ++ [c]) ++ splitRun (some []) b := by
  intro a
  induction a with
  | nil =>
    intro c b cur _ hc hb
    have h1 : (([] : List Char) ++ [c]) ++ b = c :: b := by simp
    have h2 : ([] : List Char) ++ [c] = [c] := by simp
    rw [h1, h2]
    simp only [splitRun, hc, if_true]
    rw [splitRun_none_eq_some_nil hb]
    simp [splitRun]
  | cons d a' ih =>
    intro c b cur hws hc hb
    have hws' : WsFree (a' ++ [c]) :=
      fun x hx => hws x (by rw [List.cons_append]; exact List.mem_cons_of_mem d hx)
    have hcons1 : ((d :: a') ++ [c]) ++ b = d :: ((a' ++ [c]) ++ b) := by simp
    have hcons2 : (d :: a') ++ [c] = d :: (a' ++ [c]) := by simp
    by_cases hde : isEnd d = true
    · rw [hcons1, hcons2]
      simp only [splitRun, hde, if_true]
      have hwsb : WsFree ((a' ++ [c]) ++ b) := wsFree_append hws' hb
      rw [splitRun_none_eq_some_nil hwsb, ih c b [] hws' hc hb,
        splitRun_none_eq_some_nil hws', List.append_assoc]
    · have hde' : isEnd d = false := Bool.not_eq_true _ |>.mp hde
      rw [hcons1, hcons2]
      simp only [splitRun, hde', Bool.false_eq_true, if_false]
      exact ih c b (cur ++ [d]) hws' hc hb

theorem endFree_of_hasEnd_false {l : List Char} (h : hasEnd l = false) : EndFree l := by
  intro c hc
  cases hec : isEnd c
  · rfl
  · exfalso
    have hl : hasEnd l = true := by
      unfold hasEnd
      rw [List.any_eq_true]
      exact ⟨c, hc, hec⟩
    rw [h] at hl
    exact Bool.false_ne_true hl

theorem endsWithEnd_concat (s : List Char) (x : Char) :
    endsWithEnd (s ++ [x]) = isEnd x := by
  unfold endsWithEnd
  rw [List.getLast?_concat]

theorem exists_concat_of_endsWithEnd {t : List Char} (he : endsWithEnd t = true) :
    ∃ t' c, t = t' ++ [c] ∧ isEnd c = true := by
  rcases hgl : t.getLast? with _ | c
  · exfalso
    unfold endsWithEnd at he
    rw [hgl] at he
    simp at he
  · have htne : t ≠ [] := by
      intro h
      rw [h] at hgl
      simp at hgl
    have hgl2 : t.getLast htne = c := by
      have h := List.getLast?_eq_getLast t htne
      rw [hgl] at h
      exact (Option.some_inj.mp h).symm
    have hisend : isEnd c = true := by
      unfold endsWithEnd at he
      rw [hgl] at he
      simpa using he
    refine ⟨t.dropLast, c, ?_, hisend⟩
    rw [← hgl2]
    exact (List.dropLast_append_getLast htne).symm

theorem exists_end_decomp : ∀ (t : List Char), hasEnd t = true → endsWithEnd t = false →
    ∃ t₁ c r, t = (t₁ ++ [c]) ++ r ∧ isEnd c = true ∧ EndFree r ∧ r ≠ [] := by
  intro t
  induction t using List.reverseRecOn with
  | nil => intro h; simp [hasEnd] at h
  | append_singleton s x ih =>
    intro hh he
    rw [endsWithEnd_concat] at he
    have hhs : hasEnd s = true := by
      unfold hasEnd at hh
      rw [List.any_append] at hh
      unfold hasEnd
      rw [List.any_eq_true]
      simpa [he] using hh
    cases hes : endsWithEnd s
    · obtain ⟨t₁, c, r, heq, hc, hr, hrne⟩ := ih hhs hes
      refine ⟨t₁, c, r ++ [x], ?_, hc, ?_, by simp⟩
      · rw [heq, List.append_assoc]
      · intro y hy
        rcases List.mem_append.mp hy with h1 | h1
        · exact hr y h1
        · rw [List.mem_singleton.mp h1]
          exact he
    · obtain ⟨s', c, heq, hc⟩ := exists_concat_of_endsWithEnd hes
      refine ⟨s', c, [x], ?_, hc, ?_, by simp⟩
      · rw [heq]
      · intro y hy
        rw [List.mem_singleton.mp hy]
        exact he

theorem split_append_of_endsWithEnd {t u : List Char} (hws : WsFree t) (hwu : WsFree u)
    (he : endsWithEnd t = true) :
    split_into_sentences (t ++ u) = split_into_sentences t ++ split_into_sentences u := by
  obtain ⟨t', c, rfl, hc⟩ := exists_concat_of_endsWithEnd he
  unfold split_into_sentences
  exact splitRun_append t' c u [] hws hc hwu

theorem split_decomp {t₁ : List Char} {c : Char} {r : List Char}
    (hws : WsFree ((t₁ ++ [c]) ++ r)) (hc : isEnd c = true) (hr : EndFree r) (hrne : r ≠ []) :
    split_into_sentences ((t₁ ++ [c]) ++ r)
      = split_into_sentences (t₁ ++ [c]) ++ [r] := by
  have hws1 : WsFree (t₁ ++ [c]) := wsFree_of_append_left hws
  have hwsr : WsFree r := wsFree_of_append_right hws
  unfold split_into_sentences
  rw [splitRun_append t₁ c r [] hws1 hc hwsr, splitRun_endFree r hr [], List.nil_append,
    emitPiece_of_wsFree hwsr hrne]

theorem processChunks_split : ∀ (chunks : List (List Char)) (b : List Char),
    (∀ ch ∈ chunks, WsFree ch) → WsFree b → EndFree b →
    (processChunks chunks b).1 ++ split_into_sentences (processChunks chunks b).2
      = split_into_sentences (b ++ chunks.flatten) := by
  intro chunks
  induction chunks with
  | nil =>
    intro b _ _ _
    simp [processChunks]
  | cons c cs ih =>
    intro b hws hb _
    have hwc : WsFree c := hws c (List.mem_cons_self c cs)
    have hws' : ∀ ch ∈ cs, WsFree ch := fun ch hch => hws ch (List.mem_cons_of_mem c hch)
    have hwt : WsFree (b ++ c) := wsFree_append hb hwc
    have hflat : WsFree cs.flatten := by
      intro x hx
      rw [List.mem_flatten] at hx
      obtain ⟨l, hl, hxl⟩ := hx
      exact hws' l hl x hxl
    have hflat_eq : (c :: cs).flatten = c ++ cs.flatten := List.flatten_cons ..
    by_cases hhe : hasEnd (b ++ c) = true
    · by_cases hew : endsWithEnd (b ++ c) = true
      · -- the buffer ends on a terminator: everything is emitted, buffer resets
        have hpst : process_streaming_text c b = (split_into_sentences (b ++ c), []) := by
          unfold process_streaming_text
          rw [if_neg (by simp [hhe]), if_pos hew]
        have hih := ih [] hws' wsFree_nil endFree_nil
        simp only [processChunks, hpst]
        rw [List.append_assoc, hih, List.nil_append, hflat_eq, ← List.append_assoc,
          split_append_of_endsWithEnd hwt hflat hew]
      · -- a terminator occurs but not at the end: the last piece is withheld
        have hew' : endsWithEnd (b ++ c) = false := Bool.not_eq_true _ |>.mp hew
        obtain ⟨t₁, c0, r, heq, hc0, hrEF, hrne⟩ := exists_end_decomp (b ++ c) hhe hew'
        have hwt' : WsFree ((t₁ ++ [c0]) ++ r) := heq ▸ hwt
        have hws1 : WsFree (t₁ ++ [c0]) := wsFree_of_append_left hwt'
        have hwsr : WsFree r := wsFree_of_append_right hwt'
        have hS : split_into_sentences (b ++ c)
            = split_into_sentences (t₁ ++ [c0]) ++ [r] := by
          rw [heq]
          exact split_decomp hwt' hc0 hrEF hrne
        have hpst : process_streaming_text c b
            = (split_into_sentences (t₁ ++ [c0]), r) := by
          unfold process_streaming_text
          rw [if_neg (by simp [hhe]), if_neg (by simp [hew']), hS,
            List.dropLast_concat, List.getLast?_concat]
          rfl
        have hih := ih r hws' hwsr hrEF
        have hend : endsWithEnd (t₁ ++ [c0]) = true := by
          rw [endsWithEnd_concat]
          exact hc0
        simp only [processChunks, hpst]
        rw [List.append_assoc, hih, hflat_eq, ← List.append_assoc, heq, List.append_assoc,
          split_append_of_endsWithEnd hws1 (wsFree_append hwsr hflat) hend]
    · -- no terminator: everything stays in the buffer
      have hne : hasEnd (b ++ c) = false := Bool.not_eq_true _ |>.mp hhe
      have hte : EndFree (b ++ c) := endFree_of_hasEnd_false hne
      have hpst : process_streaming_text c b = ([], b ++ c) := by
        unfold process_streaming_text
        rw [if_pos (by simp [hne])]
      have hih := ih (b ++ c) hws' hwt hte
      simp only [processChunks, hpst]
      rw [List.nil_append, hih, hflat_eq, List.append_assoc]

/-- Claim C6, amended: for chunk streams containing no whitespace
characters, folding process_streaming_text left-to-right from the empty
buffer emits exactly the sentences of split_into_sentences applied to the
concatenation, minus the trailing piece retained in the final buffer: the
emitted sentences followed by the sentences of the final buffer equal the
split of the concatenation, in order.  (When a chunk boundary follows
whitespace the fold can differ: keeping the stripped last piece as the
new buffer drops the whitespace and glues words together; see the
counterexample.) -/
theorem claim6_amended_streaming_fold (chunks : List (List Char))
    (h : ∀ ch ∈ chunks, WsFree ch) :
    (processChunks chunks []).1 ++ split_into_sentences (processChunks chunks []).2
      = split_into_sentences chunks.flatten := by
  have hmain := processChunks_split chunks [] h wsFree_nil endFree_nil
  simpa using hmain

/-- Witness for claim C6: the whitespace-free chunk stream "hi." then
"ok" emits exactly the sentence "hi." and retains "ok" in the buffer. -/
theorem claim6_witness :
    (∀ ch ∈ [['h', 'i', '.'], ['o', 'k']], WsFree ch)
    ∧ (processChunks [['h', 'i', '.'], ['o', 'k']] []).1
        ++ split_into_sentences (processChunks [['h', 'i', '.'], ['o', 'k']] []).2
      = split_into_sentences ([['h', 'i', '.'], ['o', 'k']].flatten) :=
  ⟨by decide, claim6_amended_streaming_fold [['h', 'i', '.'], ['o', 'k']] (by decide)⟩

/-- Counterexample to claim C6 as stated: on the chunk stream
"a. b " then "c." the fold emits the sentences "a." and "bc." with an
empty final buffer — the remainder buffer "b" was stripped of its
trailing space, gluing it to "c" — while split_into_sentences of the
concatenation "a. b c." yields "a." and "b c.".  The emitted sentence
"bc." is not among the sentences of the concatenation, so the emitted
set is not the split of the concatenation minus the withheld trailing
piece (nothing is withheld: the final buffer is empty). -/
theorem claim6_counterexample :
    processChunks [['a', '.', ' ', 'b', ' '], ['c', '.']] []
      = ([['a', '.'], ['b', 'c', '.']], [])
    ∧ split_into_sentences (['a', '.', ' ', 'b', ' '] ++ ['c', '.'])
      = [['a', '.'], ['b', ' ', 'c', '.']]
    ∧ ['b', 'c', '.'] ∉ split_into_sentences (['a', '.', ' ', 'b', ' '] ++ ['c', '.']) := by
  refine ⟨by decide, by decide, by decide⟩

end Textm

namespace Sess

theorem drainQueue_eq (q : List String) : drainQueue q = ([], []) := by
  induction q with
  | nil => rfl
  | cons a t ih =>
    simp only [drainQueue]
    exact ih

/-- Claim C3: when request_interrupt returns, the interrupt flag is set,
all three queues are empty, and the drain emitted no outbound messages. -/
theorem claim3_request_interrupt_drains (s : SessionState) :
    (request_interrupt s).1.interrupt_requested = true
    ∧ (request_interrupt s).1.asr_queue = []
    ∧ (request_interrupt s).1.llm_queue = []
    ∧ (request_interrupt s).1.tts_queue = []
    ∧ (request_interrupt s).2 = [] := by
  rcases s with ⟨ir, ipl, ita, aq, lq, tq, pt, clt, ctt⟩
  unfold request_interrupt cancelPipelineTasks clearQueues
  rcases clt with _ | t1 <;> rcases ctt with _ | t2
  · simp [drainQueue_eq]
  · cases h2 : t2.done <;> simp [h2, drainQueue_eq]
  · cases h1 : t1.done <;> simp [h1, drainQueue_eq]
  · cases h1 : t1.done <;> cases h2 : t2.done <;> simp [h1, h2, drainQueue_eq]

end Sess

namespace TTSQ

theorem starts_append (a b : List Ev) : starts (a ++ b) = starts a ++ starts b := by
  unfold starts
  rw [List.filterMap_append]

theorem inv_init : Inv initCfg :=
  ⟨rfl, by simp [initCfg], fun _ => rfl, fun _ => rfl⟩

theorem pair_eq_nil_of_length_le_one {t : SynthTask} {pre post : List SynthTask}
    (h : (pre ++ t :: post).length ≤ 1) : pre = [] ∧ post = [] := by
  rw [List.length_append, List.length_cons] at h
  exact ⟨List.eq_nil_of_length_eq_zero (by omega),
    List.eq_nil_of_length_eq_zero (by omega)⟩

theorem inv_step {c c' : Cfg} (hinv : Inv c) (hstep : Step c c') : Inv c' := by
  obtain ⟨h1, h2, h3, h4⟩ := hinv
  cases hstep with
  | enqueue s =>
    refine ⟨?_, h2, h3, h4⟩
    simp only []
    rw [h1]
    simp [List.append_assoc]
  | workerWait h hl =>
    exact ⟨h1, h2, h3, fun _ => hl⟩
  | workerDequeue s rest h hq =>
    have hl : c.latch = true := h4 h
    have ht : c.tasks = [] := h3 hl
    refine ⟨?_, ?_, ?_, ?_⟩
    · simp only []
      rw [h1, ht, hq]
      simp [pendingOf]
    · simp [ht]
    · intro hfalse
      simp at hfalse
    · intro hw
      simp at hw
  | taskStart t pre post h hp =>
    obtain ⟨hpre, hpost⟩ := pair_eq_nil_of_length_le_one (h ▸ h2)
    subst hpre hpost
    refine ⟨?_, by simp, ?_, ?_⟩
    · simp only []
      rw [h1, h, starts_append]
      simp [starts, pendingOf, hp]
    · intro hl
      have := h3 hl
      rw [h] at this
      simp at this
    · exact h4
  | taskSynthDone t pre post h hp =>
    obtain ⟨hpre, hpost⟩ := pair_eq_nil_of_length_le_one (h ▸ h2)
    subst hpre hpost
    refine ⟨?_, by simp, ?_, ?_⟩
    · simp only []
      rw [h1, h]
      simp [pendingOf, hp]
    · intro hl
      have := h3 hl
      rw [h] at this
      simp at this
    · exact h4
  | taskSynthFail t pre post h hp =>
    obtain ⟨hpre, hpost⟩ := pair_eq_nil_of_length_le_one (h ▸ h2)
    subst hpre hpost
    refine ⟨?_, by simp, ?_, ?_⟩
    · simp only []
      rw [h1, h]
      simp [pendingOf, hp]
    · intro hl
      have := h3 hl
      rw [h] at this
      simp at this
    · exact h4
  | taskEnd t pre post h hp =>
    obtain ⟨hpre, hpost⟩ := pair_eq_nil_of_length_le_one (h ▸ h2)
    subst hpre hpost
    refine ⟨?_, by simp, ?_, ?_⟩
    · simp only []
      rw [h1, h, starts_append]
      simp [starts, pendingOf, hp]
    · intro hl
      have := h3 hl
      rw [h] at this
      simp at this
    · exact h4
  | taskExit t pre post h hp =>
    obtain ⟨hpre, hpost⟩ := pair_eq_nil_of_length_le_one (h ▸ h2)
    subst hpre hpost
    refine ⟨?_, by simp, ?_, ?_⟩
    · simp only []
      rw [h1, h]
      simp [pendingOf, hp]
    · intro _
      rfl
    · intro _
      rfl

/-- Claim C1: in every reachable configuration of the TTS subsystem the
sentences named by the emitted tts_start events are exactly an initial
segment of the enqueue order (so tts_start events are emitted in exactly
the enqueue order); at most one synthesis task is ever live, and while
the completion latch is set no synthesis task is live — the worker
dequeues the next sentence only after the previous synthesis task has
exited and set the latch. -/
theorem claim1_tts_start_order (c : Cfg) (h : Reachable c) :
    (∃ rest, c.enqueued = starts c.events ++ rest)
    ∧ c.tasks.length ≤ 1
    ∧ (c.latch = true → c.tasks = []) := by
  have hinv : Inv c := by
    induction h with
    | init => exact inv_init
    | step hr hs ih => exact inv_step ih hs
  obtain ⟨h1, h2, h3, _⟩ := hinv
  exact ⟨⟨(c.tasks.map pendingOf).flatten ++ c.queue, by rw [h1, List.append_assoc]⟩, h2, h3⟩

/-- Witness for claim C1: the configuration reached by enqueuing the
sentence "hello" into the initial configuration. -/
theorem claim1_witness :
    (∃ rest, demoCfg.enqueued = starts demoCfg.events ++ rest)
    ∧ demoCfg.tasks.length ≤ 1
    ∧ (demoCfg.latch = true → demoCfg.tasks = []) :=
  claim1_tts_start_order demoCfg
    (Reachable.step Reachable.init (Step.enqueue initCfg "hello"))

end TTSQ

namespace Intr

theorem applyEvent_after_interrupt {s : HSession} (e : HEvent)
    (h : s.interrupt_requested = true) :
    (applyEvent s e).interrupt_requested = true
    ∧ (∀ x ∈ (applyEvent s e).llm_queue, x ∈ s.llm_queue)
    ∧ ((applyEvent s e).workers_running = true → s.workers_running = true) := by
  cases e with
  | bargeIn => simp [applyEvent, requestInterrupt]
  | stopCommand => simp [applyEvent, requestInterrupt]
  | interruptCommand => simp [applyEvent, requestInterrupt]
  | asrFinal t => simp [applyEvent, h]
  | asrWorkerStep =>
    by_cases hw : s.workers_running = false
    · simp [applyEvent, hw, h]
    · simp [applyEvent, hw, h]

/-- Claim C2 (behavior at the failing input): once the interrupt flag is
set, no operation reachable in the code after connection setup ever
clears it — clear_interrupt has no caller and start_pipeline runs only
once — and the llm_in queue never receives a new transcript: every later
final transcript stays stuck in asr_out because the cancelled ASR worker
is never restarted, and a running worker loop exits when the flag is
set. -/
theorem claim2_interrupt_never_cleared (s : HSession) (evs : List HEvent)
    (h : s.interrupt_requested = true) :
    (applyEvents s evs).interrupt_requested = true
    ∧ (∀ x ∈ (applyEvents s evs).llm_queue, x ∈ s.llm_queue) := by
  induction evs generalizing s with
  | nil => exact ⟨h, fun x hx => hx⟩
  | cons e rest ih =>
    obtain ⟨h1, h2, _⟩ := applyEvent_after_interrupt e h
    obtain ⟨g1, g2⟩ := ih (applyEvent s e) h1
    exact ⟨g1, fun x hx => h2 x (g2 x hx)⟩

/-- Witness for claim C2: after an interrupt, the final transcript
"hello" is enqueued and the ASR worker takes a step, yet the flag stays
set and llm_in stays empty. -/
theorem claim2_witness :
    (applyEvents postInterrupt
      [HEvent.asrFinal "hello", HEvent.asrWorkerStep]).interrupt_requested = true
    ∧ (∀ x ∈ (applyEvents postInterrupt
        [HEvent.asrFinal "hello", HEvent.asrWorkerStep]).llm_queue,
        x ∈ postInterrupt.llm_queue)
    ∧ (applyEvents postInterrupt
        [HEvent.asrFinal "hello", HEvent.asrWorkerStep]).llm_queue = [] :=
  ⟨(claim2_interrupt_never_cleared postInterrupt
      [HEvent.asrFinal "hello", HEvent.asrWorkerStep] rfl).1,
   (claim2_interrupt_never_cleared postInterrupt
      [HEvent.asrFinal "hello", HEvent.asrWorkerStep] rfl).2,
   rfl⟩

end Intr

namespace Sweep

/-- Claim C5 (behavior at the failing input): a session built by the
code's construction path — SessionState.__init__ then
PipelineHandler.__init__ — has tts_processor = None, because the handler
keeps the created TTS service on itself and nothing ever assigns
session.tts_processor; hence when the session goes inactive the sweep
removes it without invoking any TTS interrupt. -/
theorem claim5_sweep_skips_tts_interrupt (sid : String) (created proc now : Nat)
    (hin : is_inactive ((pipelineHandlerNew (sessionNew sid created) proc).1) now = true) :
    ((pipelineHandlerNew (sessionNew sid created) proc).1).tts_processor = none
    ∧ sweep now [(pipelineHandlerNew (sessionNew sid created) proc).1]
        = ([], [SweepAction.removed sid]) := by
  refine ⟨rfl, ?_⟩
  have hin' : is_inactive
      { session_id := sid, last_activity := created, tts_processor := none } now = true := hin
  unfold sweep
  simp [pipelineHandlerNew, sessionNew, hin', sweepSession]

/-- Witness for claim C5: a session created at time 0 and swept at time
1000 (inactive for more than the 600 second timeout) is removed with no
TTS interrupt emitted, although a TTS processor exists on the handler. -/
theorem claim5_witness :
    is_inactive ((pipelineHandlerNew (sessionNew "s" 0) 7).1) 1000 = true
    ∧ sweep 1000 [(pipelineHandlerNew (sessionNew "s" 0) 7).1]
        = ([], [SweepAction.removed "s"]) :=
  ⟨by decide, (claim5_sweep_skips_tts_interrupt "s" 0 7 1000 (by decide)).2⟩

end Sweep

namespace TTSE

theorem interleave_countP (p : CEv → Bool) :
    ∀ {a b l : List CEv}, Interleave a b l → countP p l = countP p a + countP p b := by
  intro a b l h
  induction h with
  | nil => rfl
  | left x h ih =>
    simp only [countP, List.filter_cons] at *
    cases hp : p x
    · simp [hp, ih]
    · simp [hp, ih]
      omega
  | right x h ih =>
    simp only [countP, List.filter_cons] at *
    cases hp : p x
    · simp [hp, ih]
    · simp [hp, ih]
      omega

theorem interleave_sublist_right :
    ∀ {a b l : List CEv}, Interleave a b l → b.Sublist l := by
  intro a b l h
  induction h with
  | nil => exact List.Sublist.refl []
  | left x h ih => exact List.Sublist.cons x ih
  | right x h ih => exact List.Sublist.cons₂ x ih

theorem interleave_nil_left : ∀ (b : List CEv), Interleave [] b b := by
  intro b
  induction b with
  | nil => exact Interleave.nil
  | cons x t ih => exact Interleave.right x ih

theorem interleave_append (a b : List CEv) : Interleave a b (a ++ b) := by
  induction a with
  | nil =>
    rw [List.nil_append]
    exact interleave_nil_left b
  | cons x t ih => exact Interleave.left x ih

/-- Claim C4, amended: for every non-interrupted synthesized sentence the
client receives exactly one contiguous binary PCM payload, and the
adapter events — its tts_start, the payload, its tts_end — reach the
client in that order; but the sentence produces two tts_start and two
tts_end events in total, the orchestrator pair from _synthesize_speech
and the adapter pair from _process_send_queue, not one of each. -/
theorem claim4_amended_event_counts (text : List Char) (n : Nat) (l : List CEv)
    (hne : Textm.strip text ≠ [])
    (hil : Interleave ((synthesize_speech text false n).1) (adapterEvents text false n) l) :
    countP isStart l = 2 ∧ countP isBinary l = 1 ∧ countP isEnd l = 2
    ∧ (adapterEvents text false n).Sublist l
    ∧ adapterEvents text false n = [CEv.ttsStartA text, CEv.binary n, CEv.ttsEndA] := by
  have ha : adapterEvents text false n = [CEv.ttsStartA text, CEv.binary n, CEv.ttsEndA] := by
    unfold adapterEvents synthesize_speech synthesize_text
    rw [if_neg hne]
    simp [processSendItem]
  have ho : (synthesize_speech text false n).1 = [CEv.ttsStartP, CEv.ttsEndP] := by
    unfold synthesize_speech synthesize_text
    rw [if_neg hne]
    rfl
  refine ⟨?_, ?_, ?_, interleave_sublist_right hil, ha⟩ <;>
    rw [interleave_countP _ hil, ha, ho] <;> rfl

/-- Witness for claim C4: the sentence "ok" with a 160-byte payload, with
the adapter events delivered after the orchestrator pair. -/
theorem claim4_witness :
    countP isBinary ((synthesize_speech ['o', 'k'] false 160).1
      ++ adapterEvents ['o', 'k'] false 160) = 1 :=
  (claim4_amended_event_counts ['o', 'k'] 160 _ (by decide)
    (interleave_append _ _)).2.1

/-- Counterexample to claim C4 as stated: for the non-interrupted
sentence "hi" the client-visible event stream contains two tts_start and
two tts_end events (the orchestrator pair and the adapter pair) around
the single binary payload — not exactly one of each. -/
theorem claim4_counterexample :
    countP isStart ((synthesize_speech ['h', 'i'] false 320).1
      ++ adapterEvents ['h', 'i'] false 320) = 2
    ∧ countP isEnd ((synthesize_speech ['h', 'i'] false 320).1
      ++ adapterEvents ['h', 'i'] false 320) = 2
    ∧ countP isBinary ((synthesize_speech ['h', 'i'] false 320).1
      ++ adapterEvents ['h', 'i'] false 320) = 1
    ∧ Interleave ((synthesize_speech ['h', 'i'] false 320).1)
        (adapterEvents ['h', 'i'] false 320)
        ((synthesize_speech ['h', 'i'] false 320).1 ++ adapterEvents ['h', 'i'] false 320) :=
  ⟨by decide, by decide, by decide, interleave_append _ _⟩

end TTSE

namespace LLMR

/-- Claim C9: on every exit of the per-utterance LLM response task —
normal completion of the stream, an exception raised after any number of
chunks, or cancellation at any await — the finally block leaves
is_processing_llm false. -/
theorem claim9_llm_flag_cleared (s : LState) (chunks : List (List Char)) (e : ExitMode) :
    (process_llm_response s chunks e).1.is_processing_llm = false := rfl

end LLMR

end RTA
